import Mathlib

/-!
Verification of the refresh_csv_comparison_tool core against its specification.

The development shallowly embeds the program's pure core:

* `normalize_filename` — the identity normalizer (`os.path.basename`,
  `os.path.splitext`, conditional literal strip of a leading marker,
  `str.rsplit(delim, 1)[0]`), modelled character-list by character-list
  after CPython's posixpath semantics.
* `get_file_list` — the archive indexer (`sorted`/filter over the entry
  listing, with the failure path collapsing to the empty list).
* `buildMap` / `common_keys` — the dict comprehension building the
  name-to-path map (later entries overwrite earlier on key collision) and
  the sorted key-set intersection.
* `compare_dataframes` — the tabular diff engine: ignore-column drop,
  column-set check, lexicographic column canonicalization, provenance
  tagging via a `_source` column, concatenation, and
  `drop_duplicates(subset=compare_cols, keep=False)`.  The dedup step is
  fallible: on a non-empty combined frame with an empty `compare_cols`
  (every column of both tables ignored) pandas' `DataFrame.duplicated`
  raises `ValueError`, so the engine is modelled as returning an `Option`,
  `none` being that uncaught exception.
* `compare_dataframes_heap` — the same engine over an explicit object
  heap, separating the copy-returning pandas operations (`drop`,
  `sort_index`, `concat`, `drop_duplicates`) from the one in-place
  mutation (`df['_source'] = ...`), to settle the frame claim.

A `Table` is an ordered list of column names together with rows stored as
association lists from column name to scalar value (pandas rows are
name-indexed; well-formed rows carry exactly the table's columns in
order).  Cell lookup takes the first entry with the requested name.
-/

/-- Scalar cell values: the closed variant the spec assigns to table cells. -/
inductive Value where
  | str : String → Value
  | intv : Int → Value
  | boolv : Bool → Value
  | null : Value
deriving DecidableEq, Repr

/-- A row is an association list from column name to cell value. -/
abbrev Row := List (String × Value)

/-- An in-memory table: ordered column names plus rows. -/
structure Table where
  cols : List String
  rows : List Row
deriving DecidableEq, Repr

/-- Cell lookup by column name; first matching entry wins, missing gives null. -/
def rowLookup (r : Row) (c : String) : Value :=
  match r.find? (fun q => q.1 == c) with
  | some q => q.2
  | none => Value.null

/-- Column list after `df.drop(columns=[c for c in ignore_cols if c in df.columns])`. -/
def dropColsList (ignore : List String) (cols : List String) : List String :=
  cols.filter (fun c => !(ignore.contains c))

/-- The drop of every ignore-listed column from a table (pandas `drop` returns a copy). -/
def Table.dropIgnore (T : Table) (ignore : List String) : Table :=
  ⟨dropColsList ignore T.cols, T.rows.map (fun r => r.filter (fun q => !(ignore.contains q.1)))⟩

/-- Equality of column-name sets, as in `set(df1.columns) == set(df2.columns)`. -/
def sameColSet (l1 l2 : List String) : Bool :=
  l1.all (fun c => l2.contains c) && l2.all (fun c => l1.contains c)

/-- Lexicographically sorted copy of a name list (pandas `sort_index(axis=1)` order). -/
def sortedCols (l : List String) : List String :=
  List.insertionSort (fun a b => a ≤ b) l

/-- Rebuild a row so its entries follow the given column order. -/
def rebuildRow (cs : List String) (r : Row) : Row :=
  cs.map (fun c => (c, rowLookup r c))

/-- The table with columns put in lexicographic order, rows reindexed to match. -/
def sortCols (T : Table) : Table :=
  ⟨sortedCols T.cols, T.rows.map (fun r => rebuildRow (sortedCols T.cols) r)⟩

/-- Effect of `df['_source'] = v` on one row: overwrite in place when the
column already exists, otherwise append it at the end. -/
def setSourceRow (hasCol : Bool) (v : Value) (r : Row) : Row :=
  if hasCol then r.map (fun q => if q.1 == "_source" then (q.1, v) else q)
  else r ++ [("_source", v)]

/-- Effect of `df['_source'] = v` on a table. -/
def Table.setSource (T : Table) (v : Value) : Table :=
  ⟨if T.cols.contains "_source" then T.cols else T.cols ++ ["_source"],
   T.rows.map (setSourceRow (T.cols.contains "_source") v)⟩

/-- The old-side table as the engine prepares it: ignore-drop, column sort,
provenance tag OLD. -/
def taggedOld (df : Table) (ignore : List String) : Table :=
  (sortCols (df.dropIgnore ignore)).setSource (Value.str "OLD")

/-- The new-side table as the engine prepares it: ignore-drop, column sort,
provenance tag NEW. -/
def taggedNew (df : Table) (ignore : List String) : Table :=
  (sortCols (df.dropIgnore ignore)).setSource (Value.str "NEW")

/-- Row-wise concatenation (`pd.concat`, columns already aligned). -/
def concatTables (T1 T2 : Table) : Table :=
  ⟨T1.cols, T1.rows ++ T2.rows⟩

/-- The comparison columns: every column except the provenance tag. -/
def compareCols (cols : List String) : List String :=
  cols.filter (fun c => !(c == "_source"))

/-- The value tuple of a row across the given columns. -/
def rowTuple (cs : List String) (r : Row) : List Value :=
  cs.map (fun c => rowLookup r c)

/-- The success path of `drop_duplicates(subset=cs, keep=False)`: keep
exactly the rows whose value tuple over `cs` occurs exactly once. -/
def keepUniques (cs : List String) (rows : List Row) : List Row :=
  rows.filter (fun r =>
    rows.countP (fun r2 => decide (rowTuple cs r2 = rowTuple cs r)) == 1)

/-- Model of `drop_duplicates(subset=cs, keep=False)`: pandas returns an
empty frame unchanged (`self.empty` short-circuit); on a non-empty frame
with an empty subset `DataFrame.duplicated` raises `ValueError` (modelled
as `none`); otherwise it keeps the rows whose value tuple occurs exactly
once. -/
def dropDupsNone (cs : List String) (rows : List Row) : Option (List Row) :=
  if rows.isEmpty then some rows
  else if cs.isEmpty then none
  else some (keepUniques cs rows)

/-- The combined old-then-new tagged row list the engine deduplicates. -/
def combinedRows (df1 df2 : Table) (ignore : List String) : List Row :=
  (taggedOld df1 ignore).rows ++ (taggedNew df2 ignore).rows

/-- The comparison columns of the combined frame. -/
def combinedCompareCols (df1 df2 : Table) (ignore : List String) : List String :=
  compareCols (concatTables (taggedOld df1 ignore) (taggedNew df2 ignore)).cols

/-- The diff engine `compare_dataframes(df1, df2, ignore_cols)`.  A `none`
input stands for a table whose load failed (Python `None`); a `none` result
stands for the uncaught `ValueError` the dedup step raises when the ignore
set covered every column of both tables and data rows remain. -/
def compare_dataframes (odf1 odf2 : Option Table) (ignore : List String) :
    Option (String × Option Table) :=
  match odf1, odf2 with
  | none, _ => some ("❌ Error", none)
  | some _, none => some ("❌ Error", none)
  | some df1, some df2 =>
    if sameColSet (df1.dropIgnore ignore).cols (df2.dropIgnore ignore).cols then
      let dfAll := concatTables (taggedOld df1 ignore) (taggedNew df2 ignore)
      let cs := compareCols dfAll.cols
      match dropDupsNone cs dfAll.rows with
      | none => none
      | some diffRows =>
        let diff : Table := ⟨dfAll.cols, diffRows⟩
        if diff.rows.isEmpty then some ("✅ Match", some diff)
        else some ("⚠️ Data Mismatch", some diff)
    else some ("⚠️ Schema Diff", none)

/-- Index of the last occurrence of pattern `d` as a contiguous block of `s`
(CPython `str.rfind` semantics, generalized to a multi-character pattern). -/
def lastOccIdx (d : List Char) : List Char → Option Nat
  | [] => if d.isPrefixOf ([] : List Char) then some 0 else none
  | x :: xs =>
    match lastOccIdx d xs with
    | some j => some (j + 1)
    | none => if d.isPrefixOf (x :: xs) then some 0 else none

/-- Substring test, as Python's `d in s` for non-empty `d`. -/
def pyContainsCore (d s : List Char) : Bool :=
  (List.range (s.length + 1)).any (fun k => d.isPrefixOf (s.drop k))

/-- The `os.path.basename` of a posix path: everything after the last slash. -/
def pyBasenameCore (s : List Char) : List Char :=
  match lastOccIdx ['/'] s with
  | some j => s.drop (j + 1)
  | none => s

/-- The root part of `os.path.splitext`: cut at the last dot, but only when a
non-dot character stands before that dot (leading dots are part of the root). -/
def pySplitextRootCore (s : List Char) : List Char :=
  match lastOccIdx ['.'] s with
  | some j => if (s.take j).any (fun c => !(c == '.')) then s.take j else s
  | none => s

/-- Conditional removal of the leading marker string, guarded as in the
source by `if prefix and name.startswith(prefix)`. -/
def pyStripMarker (pfx s : List Char) : List Char :=
  if !pfx.isEmpty && pfx.isPrefixOf s then s.drop pfx.length else s

/-- Python `s.rsplit(sfx, 1)[0]` guarded by `if sfx and sfx in s`. -/
def pyRsplitHead (sfx s : List Char) : List Char :=
  if !sfx.isEmpty && pyContainsCore sfx s then
    match lastOccIdx sfx s with
    | some j => s.take j
    | none => s
  else s

/-- Core of `normalize_filename(filename, prefix, suffix_delimiter)`:
basename, extension strip, conditional single strip of the leading marker,
then `rsplit(delim, 1)[0]` when the delimiter occurs. -/
def normalizeCore (f pfx sfx : List Char) : List Char :=
  pyRsplitHead sfx (pyStripMarker pfx (pySplitextRootCore (pyBasenameCore f)))

/-- The identity normalizer of the source, on strings. -/
def normalize_filename (filename pfx sfx : String) : String :=
  ⟨normalizeCore filename.data pfx.data sfx.data⟩

/-- Occurrence test for the spec-side description of truncation. -/
def occursB (d s : List Char) (i : Nat) : Bool :=
  d.isPrefixOf (s.drop i)

/-- The largest occurrence index of `d` in `s`, described through
`Nat.findGreatest` as the spec phrases it ("the last occurrence"). -/
def lastOccSpec (d s : List Char) : Nat :=
  Nat.findGreatest (fun i => occursB d s i = true) s.length

/-- Modelled from the spec: "if the delimiter is non-empty AND it occurs at
least once in the remaining name, truncate at the last occurrence, keeping
only the portion before it". -/
def specTruncLast (d s : List Char) : List Char :=
  if d = [] then s
  else if occursB d s (lastOccSpec d s) then s.take (lastOccSpec d s) else s

/-- Modelled from the spec: "strip the file extension (last dot-delimited
suffix)", read literally as truncation at the last dot whenever one occurs. -/
def specStripExtCore (s : List Char) : List Char :=
  specTruncLast ['.'] s

/-- Modelled from the spec: "if the prefix is non-empty AND the remaining
name starts with it, remove exactly that leading occurrence". -/
def specStripPfxCore (p s : List Char) : List Char :=
  if p ≠ [] ∧ p <+: s then s.drop p.length else s

/-- The spec's four normalization steps composed in order, extension step
read literally (truncate at the last dot unconditionally). -/
def specNormalizeCore (f p d : List Char) : List Char :=
  specTruncLast d (specStripPfxCore p (specStripExtCore (pyBasenameCore f)))

/-- String wrapper of `specNormalizeCore`. -/
def specNormalize (f p d : String) : String :=
  ⟨specNormalizeCore f.data p.data d.data⟩

/-- The spec pipeline with the extension step corrected to the code's
leading-dot rule; the other three steps are the spec's own. -/
def amendedNormalizeCore (f p d : List Char) : List Char :=
  specTruncLast d (specStripPfxCore p (pySplitextRootCore (pyBasenameCore f)))

/-- The archive indexer `get_file_list`: `none` stands for an archive whose
open or read failed; otherwise filter to csv entries outside the macOS
metadata folder and sort. -/
def get_file_list (z : Option (List String)) : List String :=
  match z with
  | none => []
  | some names =>
    sortedCols (names.filter (fun f =>
      f.toLower.endsWith ".csv" && !(f.startsWith "__MACOSX")))

/-- Python dict update at one key: overwrite in place when present
(keeping the key's position), otherwise append. -/
def insertReplace (m : List (String × String)) (k v : String) :
    List (String × String) :=
  if m.any (fun q => q.1 == k) then
    m.map (fun q => if q.1 == k then (k, v) else q)
  else m ++ [(k, v)]

/-- The dict comprehension building a name-to-path map over the listed files. -/
def buildMap (files : List String) (pfx sfx : String) : List (String × String) :=
  files.foldl (fun m f => insertReplace m (normalize_filename f pfx sfx) f) []

/-- The key list of a map. -/
def mapKeys (m : List (String × String)) : List String :=
  m.map Prod.fst

/-- Dict lookup: first entry with the key. -/
def lookupMap (m : List (String × String)) (k : String) : Option String :=
  (m.find? (fun q => q.1 == k)).map Prod.snd

/-- The matcher's `common_keys`: the sorted intersection of the two key sets. -/
def common_keys (m1 m2 : List (String × String)) : List String :=
  sortedCols (((mapKeys m1).dedup).filter (fun k => (mapKeys m2).contains k))

/-- A heap of table objects: addresses below `next` are allocated. -/
structure Heap where
  mem : Nat → Table
  next : Nat

/-- Allocate a fresh table object at address `next`. -/
def Heap.alloc (H : Heap) (T : Table) : Heap :=
  ⟨fun j => if j = H.next then T else H.mem j, H.next + 1⟩

/-- Overwrite the object at an existing address (an in-place mutation). -/
def Heap.write (H : Heap) (i : Nat) (T : Table) : Heap :=
  ⟨fun j => if j = i then T else H.mem j, H.next⟩

/-- The diff engine with explicit object identity: `drop`, `sort_index`,
`concat` and `drop_duplicates` allocate fresh objects (pandas copies), while
the two `df['_source'] = ...` statements mutate in place — but only ever the
local copies. Inputs are heap references, `none` for a failed load; a `none`
result component is the dedup step's uncaught `ValueError`, which leaves the
heap as it stood when the raise happened. -/
def compare_dataframes_heap (H0 : Heap) (o1 o2 : Option Nat)
    (ignore : List String) : Heap × Option (String × Option Table) :=
  match o1, o2 with
  | none, _ => (H0, some ("❌ Error", none))
  | some _, none => (H0, some ("❌ Error", none))
  | some r1, some r2 =>
    let a1 := H0.next
    let H1 := H0.alloc ((H0.mem r1).dropIgnore ignore)
    let a2 := H1.next
    let H2 := H1.alloc ((H1.mem r2).dropIgnore ignore)
    if sameColSet (H2.mem a1).cols (H2.mem a2).cols then
      let b1 := H2.next
      let H3 := H2.alloc (sortCols (H2.mem a1))
      let b2 := H3.next
      let H4 := H3.alloc (sortCols (H3.mem a2))
      let H5 := H4.write b1 ((H4.mem b1).setSource (Value.str "OLD"))
      let H6 := H5.write b2 ((H5.mem b2).setSource (Value.str "NEW"))
      let cAll := H6.next
      let H7 := H6.alloc (concatTables (H6.mem b1) (H6.mem b2))
      let cs := compareCols (H7.mem cAll).cols
      match dropDupsNone cs (H7.mem cAll).rows with
      | none => (H7, none)
      | some diffRows =>
        let dIdx := H7.next
        let H8 := H7.alloc ⟨(H7.mem cAll).cols, diffRows⟩
        if ((H8.mem dIdx).rows).isEmpty then (H8, some ("✅ Match", some (H8.mem dIdx)))
        else (H8, some ("⚠️ Data Mismatch", some (H8.mem dIdx)))
    else (H2, some ("⚠️ Schema Diff", none))

/-- Address `j` holds in `H` what it held in `H0`, and no allocation below
`H0.next` has happened. -/
def FrameAt (H0 : Heap) (j : Nat) (H : Heap) : Prop :=
  H.mem j = H0.mem j ∧ H0.next ≤ H.next

/-- Rearrangement of a table's columns into the order `newCols` (a column
permutation when `newCols` permutes the column list). -/
def reorderTable (T : Table) (newCols : List String) : Table :=
  ⟨newCols, T.rows.map (fun r => rebuildRow newCols r)⟩

/-! ### Basic list and lookup lemmas -/

theorem contains_iff_mem (l : List String) (a : String) :
    l.contains a = true ↔ a ∈ l := by
  simp [List.contains, List.elem_iff]

theorem sameColSet_iff (l1 l2 : List String) :
    sameColSet l1 l2 = true ↔ ((∀ c ∈ l1, c ∈ l2) ∧ ∀ c ∈ l2, c ∈ l1) := by
  simp [sameColSet, contains_iff_mem]

theorem sameColSet_refl (l : List String) : sameColSet l l = true := by
  simp [sameColSet_iff]

theorem dropColsList_nil (cols : List String) : dropColsList [] cols = cols := by
  unfold dropColsList
  rw [List.filter_eq_self]
  intro c _
  simp

theorem filterIgnoreNil (r : Row) :
    r.filter (fun q => !(([] : List String).contains q.1)) = r := by
  rw [List.filter_eq_self]
  intro q _
  simp

theorem dropIgnore_nil (T : Table) : T.dropIgnore [] = T := by
  cases T with
  | mk cols rows =>
    simp only [Table.dropIgnore, dropColsList_nil, Table.mk.injEq, true_and]
    rw [List.map_congr_left (g := fun r => r)]
    · exact List.map_id' rows
    · intro r _
      exact filterIgnoreNil r

theorem rowLookup_cons_of_eq (q : String × Value) (r : Row) (c : String)
    (h : (q.1 == c) = true) : rowLookup (q :: r) c = q.2 := by
  unfold rowLookup
  rw [List.find?_cons_of_pos _ (by simp [h])]

theorem rowLookup_cons_of_ne (q : String × Value) (r : Row) (c : String)
    (h : (q.1 == c) = false) : rowLookup (q :: r) c = rowLookup r c := by
  unfold rowLookup
  rw [List.find?_cons_of_neg _ (by simp [h])]

theorem rowLookup_overwriteSource (v : Value) (r : Row) (c : String)
    (hc : ¬ c = "_source") :
    rowLookup (r.map (fun q => if q.1 == "_source" then (q.1, v) else q)) c =
      rowLookup r c := by
  induction r with
  | nil => rfl
  | cons q r ih =>
    simp only [List.map_cons]
    by_cases hs : q.1 = "_source"
    · have hb : (q.1 == "_source") = true := by simp [hs]
      have hqc : (q.1 == c) = false := by
        rw [hs]
        exact beq_eq_false_iff_ne.mpr (fun h => hc h.symm)
      rw [if_pos hb]
      rw [rowLookup_cons_of_ne (q.1, v) _ c hqc, rowLookup_cons_of_ne q r c hqc]
      exact ih
    · have hb : (q.1 == "_source") = false := beq_eq_false_iff_ne.mpr hs
      rw [if_neg (by simp [hb])]
      cases hqc : (q.1 == c) with
      | true =>
        rw [rowLookup_cons_of_eq q (r.map (fun q => if q.1 == "_source" then (q.1, v) else q)) c hqc]
        rw [rowLookup_cons_of_eq q r c hqc]
      | false =>
        rw [rowLookup_cons_of_ne q (r.map (fun q => if q.1 == "_source" then (q.1, v) else q)) c hqc]
        rw [rowLookup_cons_of_ne q r c hqc]
        exact ih

theorem rowLookup_append_source (v : Value) (r : Row) (c : String)
    (hc : ¬ c = "_source") :
    rowLookup (r ++ [("_source", v)]) c = rowLookup r c := by
  induction r with
  | nil =>
    simp only [List.nil_append]
    rw [rowLookup_cons_of_ne ("_source", v) [] c
      (beq_eq_false_iff_ne.mpr (fun h => hc h.symm))]
  | cons q r ih =>
    simp only [List.cons_append]
    cases hqc : (q.1 == c) with
    | true =>
      rw [rowLookup_cons_of_eq q (r ++ [("_source", v)]) c hqc]
      rw [rowLookup_cons_of_eq q r c hqc]
    | false =>
      rw [rowLookup_cons_of_ne q (r ++ [("_source", v)]) c hqc]
      rw [rowLookup_cons_of_ne q r c hqc]
      exact ih

theorem rowLookup_setSourceRow (b : Bool) (v : Value) (r : Row) (c : String)
    (hc : ¬ c = "_source") :
    rowLookup (setSourceRow b v r) c = rowLookup r c := by
  cases b with
  | true =>
    simp only [setSourceRow, if_pos rfl]
    exact rowLookup_overwriteSource v r c hc
  | false =>
    simp only [setSourceRow, if_neg Bool.false_ne_true]
    exact rowLookup_append_source v r c hc

theorem rowLookup_rebuild (cs : List String) (r : Row) (c : String) :
    rowLookup (rebuildRow cs r) c = if c ∈ cs then rowLookup r c else Value.null := by
  induction cs with
  | nil => simp [rebuildRow, rowLookup, List.find?]
  | cons c0 cs ih =>
    simp only [rebuildRow, List.map_cons] at ih ⊢
    by_cases hceq : c0 = c
    · subst hceq
      rw [rowLookup_cons_of_eq (c0, rowLookup r c0) _ c0 (by simp)]
      rw [if_pos (List.mem_cons_self _ _)]
    · have h : ((c0, rowLookup r c0).1 == c) = false := beq_eq_false_iff_ne.mpr hceq
      rw [rowLookup_cons_of_ne (c0, rowLookup r c0) _ c h, ih]
      have hne : ¬ c = c0 := fun he => hceq he.symm
      by_cases hm : c ∈ cs
      · rw [if_pos hm, if_pos (List.mem_cons_of_mem _ hm)]
      · rw [if_neg hm, if_neg (by simp only [List.mem_cons, hm, or_false]; exact hne)]


theorem compareCols_not_source (cols : List String) :
    ∀ c ∈ compareCols cols, ¬ c = "_source" := by
  intro c hc
  simp only [compareCols, List.mem_filter] at hc
  simpa using hc.2

theorem rowTuple_setSourceRow (cs : List String)
    (hcs : ∀ c ∈ cs, ¬ c = "_source") (b : Bool) (v : Value) (r : Row) :
    rowTuple cs (setSourceRow b v r) = rowTuple cs r := by
  apply List.map_congr_left
  intro c hc
  exact rowLookup_setSourceRow b v r c (hcs c hc)

theorem one_le_countP {p : Row → Bool} {l : List Row} {r : Row}
    (hm : r ∈ l) (hp : p r = true) : 1 ≤ l.countP p :=
  List.countP_pos_iff.mpr ⟨r, hm, hp⟩

theorem mem_keepUniques (cs : List String) (rows : List Row) (r : Row) :
    r ∈ keepUniques cs rows ↔
      r ∈ rows ∧
        rows.countP (fun r2 => decide (rowTuple cs r2 = rowTuple cs r)) = 1 := by
  simp [keepUniques, List.mem_filter]

theorem keepUniques_pair_nil (cs : List String) (A B : List Row)
    (hA : ∀ r ∈ A, ∃ rp, rp ∈ B ∧ rowTuple cs rp = rowTuple cs r)
    (hB : ∀ r ∈ B, ∃ rp, rp ∈ A ∧ rowTuple cs rp = rowTuple cs r) :
    keepUniques cs (A ++ B) = [] := by
  unfold keepUniques
  rw [List.filter_eq_nil_iff]
  intro r hr
  simp only [beq_iff_eq]
  have h2 : 2 ≤ (A ++ B).countP (fun r2 => decide (rowTuple cs r2 = rowTuple cs r)) := by
    rw [List.countP_append]
    rcases List.mem_append.mp hr with h1 | h1
    · have c1 : 1 ≤ A.countP (fun r2 => decide (rowTuple cs r2 = rowTuple cs r)) :=
        one_le_countP h1 (by simp)
      obtain ⟨rp, hrp, htup⟩ := hA r h1
      have c2 : 1 ≤ B.countP (fun r2 => decide (rowTuple cs r2 = rowTuple cs r)) :=
        one_le_countP hrp (by simp [htup])
      omega
    · have c1 : 1 ≤ B.countP (fun r2 => decide (rowTuple cs r2 = rowTuple cs r)) :=
        one_le_countP h1 (by simp)
      obtain ⟨rp, hrp, htup⟩ := hB r h1
      have c2 : 1 ≤ A.countP (fun r2 => decide (rowTuple cs r2 = rowTuple cs r)) :=
        one_le_countP hrp (by simp [htup])
      omega
  omega

theorem isEmpty_false_of_mem {α : Type} {l : List α} {c : α} (h : c ∈ l) :
    l.isEmpty = false := by
  cases l with
  | nil => exact absurd h (List.not_mem_nil c)
  | cons x xs => rfl

theorem dropDupsNone_eq_some (cs : List String) (rows : List Row)
    (h : cs.isEmpty = false ∨ rows = []) :
    dropDupsNone cs rows = some (keepUniques cs rows) := by
  rcases h with h | h
  · cases hr : rows with
    | nil => rfl
    | cons r rest =>
      unfold dropDupsNone
      rw [if_neg (by simp), if_neg (by simp [h])]
  · subst h
    rfl

/-! ### Sortedness and permutation helpers -/

theorem bool_eq_of_true_iff {a b : Bool} (h : (a = true) ↔ (b = true)) : a = b := by
  cases a <;> cases b <;> simp_all

theorem mem_sortedCols (l : List String) (c : String) : c ∈ sortedCols l ↔ c ∈ l :=
  List.mem_insertionSort _

theorem sortedCols_sorted (l : List String) :
    List.Sorted (fun a b : String => a ≤ b) (sortedCols l) :=
  List.sorted_insertionSort _ l

theorem sortedCols_eq_of_perm {l1 l2 : List String} (h : l1.Perm l2) :
    sortedCols l1 = sortedCols l2 :=
  List.eq_of_perm_of_sorted
    ((List.perm_insertionSort _ l1).trans (h.trans (List.perm_insertionSort _ l2).symm))
    (sortedCols_sorted l1) (sortedCols_sorted l2)

theorem sameColSet_congr_right (l1 : List String) {l2 l2' : List String}
    (h : l2.Perm l2') : sameColSet l1 l2 = sameColSet l1 l2' := by
  apply bool_eq_of_true_iff
  rw [sameColSet_iff, sameColSet_iff]
  simp only [h.mem_iff]

theorem rebuildRow_rebuildRow (sc p : List String) (r : Row)
    (h : ∀ c ∈ sc, c ∈ p) :
    rebuildRow sc (rebuildRow p r) = rebuildRow sc r := by
  apply List.map_congr_left
  intro c hc
  rw [rowLookup_rebuild, if_pos (h c hc)]

theorem sortCols_reorder (B : Table) (p : List String) (hp : p.Perm B.cols) :
    sortCols (reorderTable B p) = sortCols B := by
  have hc : sortedCols p = sortedCols B.cols := sortedCols_eq_of_perm hp
  show Table.mk (sortedCols (reorderTable B p).cols)
      ((reorderTable B p).rows.map
        (fun r => rebuildRow (sortedCols (reorderTable B p).cols) r)) =
    Table.mk (sortedCols B.cols) (B.rows.map (fun r => rebuildRow (sortedCols B.cols) r))
  show Table.mk (sortedCols p)
      ((B.rows.map (fun r => rebuildRow p r)).map (fun r => rebuildRow (sortedCols p) r)) =
    Table.mk (sortedCols B.cols) (B.rows.map (fun r => rebuildRow (sortedCols B.cols) r))
  rw [hc, List.map_map]
  refine congrArg _ (List.map_congr_left ?_)
  intro r _
  refine rebuildRow_rebuildRow _ _ _ ?_
  intro c hcmem
  exact hp.mem_iff.mpr ((mem_sortedCols B.cols c).mp hcmem)

/-! ### Engine case-shape helpers -/

theorem compare_fst_of_some (T1 T2 : Table) (ig : List String)
    (s : String × Option Table)
    (h : compare_dataframes (some T1) (some T2) ig = some s) :
    s.1 = "✅ Match" ∨ s.1 = "⚠️ Data Mismatch" ∨ s.1 = "⚠️ Schema Diff" := by
  simp only [compare_dataframes] at h
  split at h
  · split at h
    · exact absurd h (by simp)
    · split at h
      · injection h with h2
        rw [← h2]
        left; rfl
      · injection h with h2
        rw [← h2]
        right; left; rfl
  · injection h with h2
    rw [← h2]
    right; right; rfl

theorem compare_snd_shape (o1 o2 : Option Table) (ig : List String)
    (s : String × Option Table)
    (h : compare_dataframes o1 o2 ig = some s) :
    s.2 = none ∨ (s.1 = "✅ Match" ∨ s.1 = "⚠️ Data Mismatch") := by
  match o1, o2 with
  | none, o2 =>
    simp only [compare_dataframes] at h
    injection h with h2
    rw [← h2]
    left; rfl
  | some t1, none =>
    simp only [compare_dataframes] at h
    injection h with h2
    rw [← h2]
    left; rfl
  | some t1, some t2 =>
    simp only [compare_dataframes] at h
    split at h
    · split at h
      · exact absurd h (by simp)
      · split at h
        · injection h with h2
          rw [← h2]
          right; left; rfl
        · injection h with h2
          rw [← h2]
          right; right; rfl
    · injection h with h2
      rw [← h2]
      left; rfl

/-- Claim C2: whenever the column-name sets of the two tables differ after
removing the ignore columns from each side, the engine returns the schema
mismatch status with no delta, whatever the row content of either table is
(no row comparison can influence the result). -/
theorem claim_C2 (cols1 cols2 : List String) (ig : List String)
    (h : sameColSet (dropColsList ig cols1) (dropColsList ig cols2) = false) :
    ∀ rows1 rows2 : List Row,
      compare_dataframes (some ⟨cols1, rows1⟩) (some ⟨cols2, rows2⟩) ig =
        some ("⚠️ Schema Diff", none) := by
  intro rows1 rows2
  simp [compare_dataframes, Table.dropIgnore, h]

/-- Witness for C2 at a concrete schema mismatch. -/
theorem claim_C2_witness :
    compare_dataframes (some ⟨["a"], [[("a", Value.intv 1)]]⟩)
        (some ⟨["b"], [[("b", Value.intv 2)]]⟩) [] = some ("⚠️ Schema Diff", none) :=
  claim_C2 ["a"] ["b"] [] (by decide) [[("a", Value.intv 1)]] [[("b", Value.intv 2)]]

/-- Claim C3: a failed load on either side yields the read-error status with
no delta immediately; two successfully parsed tables never yield the
read-error status, and zero-row tables in particular always come back with
a normal status (the dedup step cannot raise on an empty frame); the delta
is absent whenever the status is read-error or schema-mismatch. -/
theorem claim_C3 :
    (∀ (o : Option Table) (ig : List String),
        compare_dataframes none o ig = some ("❌ Error", none)) ∧
    (∀ (o : Option Table) (ig : List String),
        compare_dataframes o none ig = some ("❌ Error", none)) ∧
    (∀ (T1 T2 : Table) (ig : List String) (d : Option Table),
        ¬ compare_dataframes (some T1) (some T2) ig = some ("❌ Error", d)) ∧
    (∀ (cols1 cols2 : List String) (ig : List String),
        ¬ compare_dataframes (some ⟨cols1, []⟩) (some ⟨cols2, []⟩) ig = none) ∧
    (∀ (o1 o2 : Option Table) (ig : List String) (s : String × Option Table),
        compare_dataframes o1 o2 ig = some s →
        s.1 = "❌ Error" ∨ s.1 = "⚠️ Schema Diff" → s.2 = none) := by
  refine ⟨fun o ig => rfl, fun o ig => ?_, fun T1 T2 ig d h => ?_,
    fun cols1 cols2 ig h => ?_, fun o1 o2 ig s h hs => ?_⟩
  · cases o <;> rfl
  · rcases compare_fst_of_some T1 T2 ig _ h with hf | hf | hf
    · exact absurd (show ("❌ Error" : String) = "✅ Match" from hf) (by decide)
    · exact absurd (show ("❌ Error" : String) = "⚠️ Data Mismatch" from hf) (by decide)
    · exact absurd (show ("❌ Error" : String) = "⚠️ Schema Diff" from hf) (by decide)
  · simp only [compare_dataframes] at h
    split at h
    · have hred : dropDupsNone
          (compareCols (concatTables (taggedOld (⟨cols1, []⟩ : Table) ig)
            (taggedNew (⟨cols2, []⟩ : Table) ig)).cols)
          ((concatTables (taggedOld (⟨cols1, []⟩ : Table) ig)
            (taggedNew (⟨cols2, []⟩ : Table) ig)).rows) = some [] := rfl
      rw [hred] at h
      simp at h
    · exact absurd h (by simp)
  · rcases compare_snd_shape o1 o2 ig s h with hn | hf | hf
    · exact hn
    · rcases hs with hs | hs <;> exact absurd (hs.symm.trans hf) (by decide)
    · rcases hs with hs | hs <;> exact absurd (hs.symm.trans hf) (by decide)

/-- Witness for C3: its read-error conjunct applied at a concrete failed load. -/
theorem claim_C3_witness :
    compare_dataframes none (some ⟨["a"], []⟩) [] = some ("❌ Error", none) :=
  claim_C3.1 (some ⟨["a"], []⟩) []

theorem compareCols_taggedOld_ne (T : Table) (c : String)
    (hc : c ∈ T.cols) (hcne : ¬ c = "_source") :
    (compareCols (taggedOld T []).cols).isEmpty = false := by
  refine isEmpty_false_of_mem (c := c) ?_
  simp only [taggedOld, dropIgnore_nil, Table.setSource, sortCols, compareCols,
    List.mem_filter]
  refine ⟨?_, by simp [hcne]⟩
  split
  · exact (mem_sortedCols _ _).mpr hc
  · exact List.mem_append_left _ ((mem_sortedCols _ _).mpr hc)

/-- Counterexample to claim C4 as stated: on a table whose only column is
the reserved `_source` name and which carries a row, the reflexive
comparison does not return Match — after tagging, the compare-column list
is empty while the combined frame is not, so the dedup step raises
(modelled as `none`; such a table arises from a CSV whose single header is
`_source`). -/
theorem claim_C4_counterexample :
    compare_dataframes (some ⟨["_source"], [[("_source", Value.str "x")]]⟩)
      (some ⟨["_source"], [[("_source", Value.str "x")]]⟩) [] = none := by
  decide

/-- Claim C4 (amended): reflexivity holds for every table that keeps at
least one compared column (a column other than `_source`) or has no rows:
comparing such a table against itself with an empty ignore set yields the
match status together with a present-but-empty delta. -/
theorem claim_C4 (T : Table)
    (hsafe : (∃ c ∈ T.cols, ¬ c = "_source") ∨ T.rows = []) :
    ∃ d : Table,
      compare_dataframes (some T) (some T) [] = some ("✅ Match", some d) ∧
        d.rows = [] := by
  have hset := sameColSet_refl (T.dropIgnore []).cols
  have hdisj : (compareCols (taggedOld T []).cols).isEmpty = false ∨
      ((taggedOld T []).rows ++ (taggedNew T []).rows) = [] := by
    rcases hsafe with ⟨c, hc, hcne⟩ | hrows
    · exact Or.inl (compareCols_taggedOld_ne T c hc hcne)
    · right
      have hA : (taggedOld T []).rows = [] := by
        simp [taggedOld, dropIgnore_nil, Table.setSource, sortCols, hrows]
      have hB : (taggedNew T []).rows = [] := by
        simp [taggedNew, dropIgnore_nil, Table.setSource, sortCols, hrows]
      rw [hA, hB]
      rfl
  have hpair : keepUniques (compareCols (taggedOld T []).cols)
      ((taggedOld T []).rows ++ (taggedNew T []).rows) = [] := by
    apply keepUniques_pair_nil
    · intro r hr
      simp only [taggedOld, Table.setSource, List.mem_map] at hr
      obtain ⟨r0, hr0, rfl⟩ := hr
      refine ⟨setSourceRow ((sortCols (T.dropIgnore [])).cols.contains "_source")
        (Value.str "NEW") r0, ?_, ?_⟩
      · simp only [taggedNew, Table.setSource, List.mem_map]
        exact ⟨r0, hr0, rfl⟩
      · rw [rowTuple_setSourceRow _ (compareCols_not_source _) _ _ r0,
          rowTuple_setSourceRow _ (compareCols_not_source _) _ _ r0]
    · intro r hr
      simp only [taggedNew, Table.setSource, List.mem_map] at hr
      obtain ⟨r0, hr0, rfl⟩ := hr
      refine ⟨setSourceRow ((sortCols (T.dropIgnore [])).cols.contains "_source")
        (Value.str "OLD") r0, ?_, ?_⟩
      · simp only [taggedOld, Table.setSource, List.mem_map]
        exact ⟨r0, hr0, rfl⟩
      · rw [rowTuple_setSourceRow _ (compareCols_not_source _) _ _ r0,
          rowTuple_setSourceRow _ (compareCols_not_source _) _ _ r0]
  have hnil : dropDupsNone (compareCols (taggedOld T []).cols)
      ((taggedOld T []).rows ++ (taggedNew T []).rows) = some [] := by
    rw [dropDupsNone_eq_some _ _ hdisj, hpair]
  simp only [compare_dataframes, hset, if_true, concatTables, hnil]
  exact ⟨_, rfl, rfl⟩

/-- Witness for the amended C4 at a table with a real data column. -/
theorem claim_C4_witness :
    ∃ d : Table,
      compare_dataframes (some ⟨["a"], [[("a", Value.intv 1)]]⟩)
        (some ⟨["a"], [[("a", Value.intv 1)]]⟩) [] = some ("✅ Match", some d) ∧
        d.rows = [] :=
  claim_C4 ⟨["a"], [[("a", Value.intv 1)]]⟩ (by decide)

/-- Counterexample to claim C1 as stated: the claim's hypothesis (equal
column sets after ignore removal) admits the case where the ignore set
covers every column of both tables while data rows remain; there the dedup
step raises on its empty compare-column list and the engine produces no
delta at all, against the claim's assertion of one. -/
theorem claim_C1_counterexample :
    sameColSet (((⟨["LoadDate"], [[("LoadDate", Value.str "a")]]⟩ : Table).dropIgnore
        ["LoadDate"]).cols)
      (((⟨["LoadDate"], [[("LoadDate", Value.str "b")]]⟩ : Table).dropIgnore
        ["LoadDate"]).cols) = true ∧
    compare_dataframes (some ⟨["LoadDate"], [[("LoadDate", Value.str "a")]]⟩)
      (some ⟨["LoadDate"], [[("LoadDate", Value.str "b")]]⟩) ["LoadDate"] = none :=
  ⟨by decide, by decide⟩

/-- Claim C1 (amended): on schema-agreeing inputs where at least one
compared column survives ignore removal (or no rows remain), the engine
returns a delta holding exactly the combined tagged rows whose value tuple
(provenance excluded) occurs exactly once across the old-then-new
concatenation; consequently a tuple occurring on both sides, however often,
never reaches the delta. -/
theorem claim_C1 (df1 df2 : Table) (ig : List String)
    (hcols : sameColSet (df1.dropIgnore ig).cols (df2.dropIgnore ig).cols = true)
    (hsafe : (combinedCompareCols df1 df2 ig).isEmpty = false ∨
      combinedRows df1 df2 ig = []) :
    ∃ (st : String) (d : Table),
      compare_dataframes (some df1) (some df2) ig = some (st, some d) ∧
      (∀ r : Row, r ∈ d.rows ↔
        r ∈ combinedRows df1 df2 ig ∧
          (combinedRows df1 df2 ig).countP
            (fun r2 => decide (rowTuple (combinedCompareCols df1 df2 ig) r2 =
              rowTuple (combinedCompareCols df1 df2 ig) r)) = 1) ∧
      (∀ r : Row, r ∈ d.rows →
        ¬ ((∃ ro ∈ (taggedOld df1 ig).rows,
              rowTuple (combinedCompareCols df1 df2 ig) ro =
                rowTuple (combinedCompareCols df1 df2 ig) r) ∧
           (∃ rn ∈ (taggedNew df2 ig).rows,
              rowTuple (combinedCompareCols df1 df2 ig) rn =
                rowTuple (combinedCompareCols df1 df2 ig) r))) := by
  have hdd : dropDupsNone
      (compareCols (concatTables (taggedOld df1 ig) (taggedNew df2 ig)).cols)
      ((concatTables (taggedOld df1 ig) (taggedNew df2 ig)).rows) =
      some (keepUniques
        (compareCols (concatTables (taggedOld df1 ig) (taggedNew df2 ig)).cols)
        ((concatTables (taggedOld df1 ig) (taggedNew df2 ig)).rows)) :=
    dropDupsNone_eq_some _ _ hsafe
  have hsnd : ∃ st : String,
      compare_dataframes (some df1) (some df2) ig =
        some (st, some (Table.mk
          (concatTables (taggedOld df1 ig) (taggedNew df2 ig)).cols
          (keepUniques
            (compareCols (concatTables (taggedOld df1 ig) (taggedNew df2 ig)).cols)
            ((concatTables (taggedOld df1 ig) (taggedNew df2 ig)).rows)))) := by
    simp only [compare_dataframes, hcols, if_true, hdd]
    split
    · exact ⟨"✅ Match", rfl⟩
    · exact ⟨"⚠️ Data Mismatch", rfl⟩
  obtain ⟨st, hst⟩ := hsnd
  refine ⟨st, _, hst, fun r => ?_, fun r hr hboth => ?_⟩
  · exact mem_keepUniques (combinedCompareCols df1 df2 ig) (combinedRows df1 df2 ig) r
  · obtain ⟨⟨ro, hro, hto⟩, ⟨rn, hrn, htn⟩⟩ := hboth
    have h1 := (mem_keepUniques (combinedCompareCols df1 df2 ig)
      (combinedRows df1 df2 ig) r).mp hr
    have h2 := h1.2
    simp only [combinedRows, List.countP_append] at h2
    have c1 : 1 ≤ ((taggedOld df1 ig).rows).countP
        (fun r2 => decide (rowTuple (combinedCompareCols df1 df2 ig) r2 =
          rowTuple (combinedCompareCols df1 df2 ig) r)) :=
      one_le_countP hro (by simp [hto])
    have c2 : 1 ≤ ((taggedNew df2 ig).rows).countP
        (fun r2 => decide (rowTuple (combinedCompareCols df1 df2 ig) r2 =
          rowTuple (combinedCompareCols df1 df2 ig) r)) :=
      one_le_countP hrn (by simp [htn])
    omega

/-- Witness for C1 at a concrete schema-agreeing pair with a compared column. -/
theorem claim_C1_witness :
    ∃ (st : String) (d : Table),
      compare_dataframes (some ⟨["a"], [[("a", Value.intv 1)]]⟩)
        (some ⟨["a"], [[("a", Value.intv 2)]]⟩) [] = some (st, some d) :=
  (claim_C1 ⟨["a"], [[("a", Value.intv 1)]]⟩ ⟨["a"], [[("a", Value.intv 2)]]⟩ []
    (by decide) (by decide)).elim
    (fun st hst => hst.elim (fun d hd => ⟨st, d, hd.1⟩))


/-- Claim C7: rearranging the second table's columns by any permutation does
not change the comparison result at all, because both tables' columns are
canonicalized to the same order before row tuples are formed. -/
theorem claim_C7 (A B : Table) (p : List String) (hp : p.Perm B.cols) :
    compare_dataframes (some A) (some (reorderTable B p)) [] =
      compare_dataframes (some A) (some B) [] := by
  have hsort : sortCols (reorderTable B p) = sortCols B := sortCols_reorder B p hp
  simp only [compare_dataframes, taggedOld, taggedNew, dropIgnore_nil]
  rw [hsort]
  rw [sameColSet_congr_right A.cols (show (reorderTable B p).cols.Perm B.cols from hp)]

/-- Witness for C7 at a concrete column permutation. -/
theorem claim_C7_witness :
    compare_dataframes (some ⟨["a", "b"], [[("a", Value.intv 1), ("b", Value.intv 2)]]⟩)
        (some (reorderTable ⟨["b", "a"], [[("b", Value.intv 2), ("a", Value.intv 3)]]⟩
          ["a", "b"])) [] =
      compare_dataframes (some ⟨["a", "b"], [[("a", Value.intv 1), ("b", Value.intv 2)]]⟩)
        (some ⟨["b", "a"], [[("b", Value.intv 2), ("a", Value.intv 3)]]⟩) [] :=
  claim_C7 ⟨["a", "b"], [[("a", Value.intv 1), ("b", Value.intv 2)]]⟩
    ⟨["b", "a"], [[("b", Value.intv 2), ("a", Value.intv 3)]]⟩ ["a", "b"] (by decide)

/-! ### Row pairing along a zip -/

theorem zip_partner_left {α β : Type} (P : α → β → Prop) :
    ∀ (A : List α) (B : List β), A.length = B.length →
      (∀ q ∈ A.zip B, P q.1 q.2) → ∀ a ∈ A, ∃ b ∈ B, P a b := by
  intro A
  induction A with
  | nil => intro B _ _ a ha; exact absurd ha (List.not_mem_nil a)
  | cons x xs ih =>
    intro B hlen hall a ha
    cases B with
    | nil => simp at hlen
    | cons y ys =>
      rcases List.mem_cons.mp ha with rfl | ha2
      · exact ⟨y, List.mem_cons_self y ys, hall (a, y) (by simp [List.zip_cons_cons])⟩
      · obtain ⟨b, hb, hPb⟩ := ih ys (by simpa using hlen)
          (fun q hq => hall q (by simp only [List.zip_cons_cons]; exact List.mem_cons_of_mem _ hq))
          a ha2
        exact ⟨b, List.mem_cons_of_mem y hb, hPb⟩

theorem zip_partner_right {α β : Type} (P : α → β → Prop) :
    ∀ (A : List α) (B : List β), A.length = B.length →
      (∀ q ∈ A.zip B, P q.1 q.2) → ∀ b ∈ B, ∃ a ∈ A, P a b := by
  intro A
  induction A with
  | nil =>
    intro B hlen _ b hb
    cases B with
    | nil => exact absurd hb (List.not_mem_nil b)
    | cons y ys => simp at hlen
  | cons x xs ih =>
    intro B hlen hall b hb
    cases B with
    | nil => exact absurd hb (List.not_mem_nil b)
    | cons y ys =>
      rcases List.mem_cons.mp hb with rfl | hb2
      · exact ⟨x, List.mem_cons_self x xs, hall (x, b) (by simp [List.zip_cons_cons])⟩
      · obtain ⟨a, ha, hPa⟩ := ih ys (by simpa using hlen)
          (fun q hq => hall q (by simp only [List.zip_cons_cons]; exact List.mem_cons_of_mem _ hq))
          b hb2
        exact ⟨a, List.mem_cons_of_mem x ha, hPa⟩

theorem rowTuple_tagged (cs sc : List String) (hcs : ∀ c ∈ cs, ¬ c = "_source")
    (b : Bool) (v : Value) (r : Row) :
    rowTuple cs (setSourceRow b v (rebuildRow sc r)) =
      cs.map (fun c => if c ∈ sc then rowLookup r c else Value.null) := by
  rw [rowTuple_setSourceRow cs hcs]
  apply List.map_congr_left
  intro c _
  exact rowLookup_rebuild sc r c

/-- Counterexample to claim C10 as stated: two tables whose only column is
the reserved `_source` name, differing only in that column, are not
reported as Match — after tagging, no compare columns remain while the
combined frame has rows, so the dedup step raises (modelled as `none`). -/
theorem claim_C10_counterexample :
    compare_dataframes (some ⟨["_source"], [[("_source", Value.str "x")]]⟩)
      (some ⟨["_source"], [[("_source", Value.str "y")]]⟩) [] = none := by
  decide

/-- Claim C10 (amended): when both inputs already carry a `_source` column
(schemas otherwise matching) and some column other than `_source` exists
(or the tables have no rows), the engine silently overwrites the `_source`
column with its provenance tag and excludes it from the row-equality test,
so two tables that differ only in their `_source` values compare as a
match. -/
theorem claim_C10 (T1 T2 : Table)
    (hc : T2.cols = T1.cols)
    (hsrc : "_source" ∈ T1.cols)
    (hlen : T1.rows.length = T2.rows.length)
    (hagree : ∀ q ∈ T1.rows.zip T2.rows, ∀ c ∈ T1.cols, ¬ c = "_source" →
        rowLookup q.1 c = rowLookup q.2 c)
    (hsafe : (∃ c ∈ T1.cols, ¬ c = "_source") ∨ T1.rows = []) :
    ∃ d : Table,
      compare_dataframes (some T1) (some T2) [] = some ("✅ Match", some d) ∧
        d.rows = [] := by
  have hset : sameColSet (T1.dropIgnore []).cols (T2.dropIgnore []).cols = true := by
    rw [dropIgnore_nil, dropIgnore_nil, hc]
    exact sameColSet_refl _
  have hcs : ∀ c ∈ compareCols (taggedOld T1 []).cols, ¬ c = "_source" :=
    compareCols_not_source _
  have hdisj : (compareCols (taggedOld T1 []).cols).isEmpty = false ∨
      ((taggedOld T1 []).rows ++ (taggedNew T2 []).rows) = [] := by
    rcases hsafe with ⟨c, hcm, hcne⟩ | hrows
    · exact Or.inl (compareCols_taggedOld_ne T1 c hcm hcne)
    · right
      have hT2 : T2.rows = [] := by
        rw [hrows] at hlen
        exact List.length_eq_zero.mp hlen.symm
      have hA : (taggedOld T1 []).rows = [] := by
        simp [taggedOld, dropIgnore_nil, Table.setSource, sortCols, hrows]
      have hB : (taggedNew T2 []).rows = [] := by
        simp [taggedNew, dropIgnore_nil, Table.setSource, sortCols, hT2]
      rw [hA, hB]
      rfl
  have hpair : keepUniques (compareCols (taggedOld T1 []).cols)
      ((taggedOld T1 []).rows ++ (taggedNew T2 []).rows) = [] := by
    apply keepUniques_pair_nil
    · intro r hr
      simp only [taggedOld, dropIgnore_nil, Table.setSource, sortCols, List.mem_map] at hr
      obtain ⟨r0, ⟨r00, hr00, rfl⟩, rfl⟩ := hr
      obtain ⟨r00', hr00', hagr⟩ := zip_partner_left
        (fun a b => ∀ c ∈ T1.cols, ¬ c = "_source" → rowLookup a c = rowLookup b c)
        T1.rows T2.rows hlen hagree r00 hr00
      refine ⟨setSourceRow ((sortedCols T1.cols).contains "_source") (Value.str "NEW")
        (rebuildRow (sortedCols T1.cols) r00'), ?_, ?_⟩
      · simp only [taggedNew, dropIgnore_nil, Table.setSource, sortCols, hc, List.mem_map]
        exact ⟨rebuildRow (sortedCols T1.cols) r00', ⟨r00', hr00', rfl⟩, rfl⟩
      · rw [rowTuple_tagged _ _ hcs, rowTuple_tagged _ _ hcs]
        apply List.map_congr_left
        intro c hcmem
        by_cases hmem : c ∈ sortedCols T1.cols
        · rw [if_pos hmem, if_pos hmem]
          exact (hagr c ((mem_sortedCols _ _).mp hmem) (hcs c hcmem)).symm
        · rw [if_neg hmem, if_neg hmem]
    · intro r hr
      simp only [taggedNew, dropIgnore_nil, Table.setSource, sortCols, hc, List.mem_map] at hr
      obtain ⟨r0, ⟨r00', hr00', rfl⟩, rfl⟩ := hr
      obtain ⟨r00, hr00, hagr⟩ := zip_partner_right
        (fun a b => ∀ c ∈ T1.cols, ¬ c = "_source" → rowLookup a c = rowLookup b c)
        T1.rows T2.rows hlen hagree r00' hr00'
      refine ⟨setSourceRow ((sortedCols T1.cols).contains "_source") (Value.str "OLD")
        (rebuildRow (sortedCols T1.cols) r00), ?_, ?_⟩
      · simp only [taggedOld, dropIgnore_nil, Table.setSource, sortCols, List.mem_map]
        exact ⟨rebuildRow (sortedCols T1.cols) r00, ⟨r00, hr00, rfl⟩, rfl⟩
      · rw [rowTuple_tagged _ _ hcs, rowTuple_tagged _ _ hcs]
        apply List.map_congr_left
        intro c hcmem
        by_cases hmem : c ∈ sortedCols T1.cols
        · rw [if_pos hmem, if_pos hmem]
          exact hagr c ((mem_sortedCols _ _).mp hmem) (hcs c hcmem)
        · rw [if_neg hmem, if_neg hmem]
  have hnil : dropDupsNone (compareCols (taggedOld T1 []).cols)
      ((taggedOld T1 []).rows ++ (taggedNew T2 []).rows) = some [] := by
    rw [dropDupsNone_eq_some _ _ hdisj, hpair]
  simp only [compare_dataframes, hset, if_true, concatTables, hnil]
  exact ⟨_, rfl, rfl⟩

/-- Witness for C10: two one-row tables (with a real data column) differing
only in `_source`. -/
theorem claim_C10_witness :
    ∃ d : Table,
      compare_dataframes
        (some ⟨["_source", "a"], [[("_source", Value.str "x"), ("a", Value.intv 1)]]⟩)
        (some ⟨["_source", "a"], [[("_source", Value.str "y"), ("a", Value.intv 1)]]⟩)
        [] = some ("✅ Match", some d) ∧ d.rows = [] :=
  claim_C10 ⟨["_source", "a"], [[("_source", Value.str "x"), ("a", Value.intv 1)]]⟩
    ⟨["_source", "a"], [[("_source", Value.str "y"), ("a", Value.intv 1)]]⟩
    (by decide) (by decide) (by decide) (by decide) (by decide)

/-! ### Last-occurrence characterization -/

theorem lastOccIdx_some_occurs (d : List Char) :
    ∀ (s : List Char) (j : Nat), lastOccIdx d s = some j → occursB d s j = true := by
  intro s
  induction s with
  | nil =>
    intro j h
    cases d with
    | nil =>
      simp only [lastOccIdx, List.isPrefixOf, if_pos] at h
      cases h
      simp [occursB, List.isPrefixOf]
    | cons y ys => simp [lastOccIdx, List.isPrefixOf] at h
  | cons x xs ih =>
    intro j h
    simp only [lastOccIdx] at h
    cases hx : lastOccIdx d xs with
    | some j2 =>
      rw [hx] at h
      simp only [] at h
      cases h
      have := ih j2 hx
      simpa [occursB] using this
    | none =>
      rw [hx] at h
      simp only [] at h
      cases hp : d.isPrefixOf (x :: xs) with
      | true =>
        rw [hp] at h
        simp only [if_pos] at h
        cases h
        simpa [occursB] using hp
      | false =>
        rw [hp] at h
        simp at h

theorem lastOccIdx_none_no_occ (d : List Char) (hd : d ≠ []) :
    ∀ (s : List Char), lastOccIdx d s = none → ∀ k, occursB d s k = false := by
  cases d with
  | nil => exact absurd rfl hd
  | cons y ys =>
    intro s
    induction s with
    | nil =>
      intro _ k
      rw [occursB, List.drop_eq_nil_of_eq_nil rfl]
      simp [List.isPrefixOf]
    | cons x xs ih =>
      intro h k
      simp only [lastOccIdx] at h
      cases hx : lastOccIdx (y :: ys) xs with
      | some j2 => rw [hx] at h; simp at h
      | none =>
        rw [hx] at h
        simp only [] at h
        cases hp : (y :: ys).isPrefixOf (x :: xs) with
        | true => rw [hp] at h; simp at h
        | false =>
          cases k with
          | zero => simpa [occursB] using hp
          | succ k2 =>
            have := ih hx k2
            simpa [occursB] using this

theorem lastOccIdx_some_max (d : List Char) (hd : d ≠ []) :
    ∀ (s : List Char) (j : Nat), lastOccIdx d s = some j →
      ∀ k, occursB d s k = true → k ≤ j := by
  intro s
  induction s with
  | nil =>
    intro j h
    cases d with
    | nil => exact absurd rfl hd
    | cons y ys => simp [lastOccIdx, List.isPrefixOf] at h
  | cons x xs ih =>
    intro j h k hk
    simp only [lastOccIdx] at h
    cases hx : lastOccIdx d xs with
    | some j2 =>
      rw [hx] at h
      simp only [] at h
      cases h
      cases k with
      | zero => omega
      | succ k2 =>
        have hk2 : occursB d xs k2 = true := by simpa [occursB] using hk
        have := ih j2 hx k2 hk2
        omega
    | none =>
      rw [hx] at h
      simp only [] at h
      cases hp : d.isPrefixOf (x :: xs) with
      | true =>
        rw [hp] at h
        simp only [if_pos] at h
        cases h
        cases k with
        | zero => exact Nat.le_refl 0
        | succ k2 =>
          have hk2 : occursB d xs k2 = true := by simpa [occursB] using hk
          rw [lastOccIdx_none_no_occ d hd xs hx k2] at hk2
          cases hk2
      | false =>
        rw [hp] at h
        simp at h

theorem occursB_le_length {d : List Char} (hd : d ≠ []) {s : List Char} {k : Nat}
    (h : occursB d s k = true) : k ≤ s.length := by
  by_contra hlt
  push_neg at hlt
  rw [occursB, List.drop_eq_nil_of_le (by omega)] at h
  cases d with
  | nil => exact hd rfl
  | cons y ys => simp [List.isPrefixOf] at h

theorem pyContains_iff (d : List Char) (hd : d ≠ []) (s : List Char) :
    pyContainsCore d s = true ↔ ∃ k, occursB d s k = true := by
  unfold pyContainsCore
  rw [List.any_eq_true]
  constructor
  · rintro ⟨k, _, hp⟩
    exact ⟨k, hp⟩
  · rintro ⟨k, hk⟩
    refine ⟨k, ?_, hk⟩
    rw [List.mem_range]
    have := occursB_le_length hd hk
    omega

theorem lastOccIdx_some_of_occurs (d : List Char) (hd : d ≠ []) (s : List Char)
    (hex : ∃ k, occursB d s k = true) : lastOccIdx d s = some (lastOccSpec d s) := by
  cases hx : lastOccIdx d s with
  | none =>
    obtain ⟨k, hk⟩ := hex
    rw [lastOccIdx_none_no_occ d hd s hx k] at hk
    cases hk
  | some j =>
    have hocc := lastOccIdx_some_occurs d s j hx
    have hmax := lastOccIdx_some_max d hd s j hx
    have hle : j ≤ s.length := occursB_le_length hd hocc
    have h1 : j ≤ lastOccSpec d s := Nat.le_findGreatest hle hocc
    have h2 : lastOccSpec d s ≤ j :=
      hmax _ (Nat.findGreatest_spec (P := fun i => occursB d s i = true) hle hocc)
    rw [Nat.le_antisymm h1 h2]

/-! ### The source's marker and delimiter steps equal the spec's wording -/

theorem pyStripMarker_eq_spec (p s : List Char) :
    pyStripMarker p s = specStripPfxCore p s := by
  unfold pyStripMarker specStripPfxCore
  cases p with
  | nil => simp [List.isEmpty]
  | cons y ys =>
    simp only [List.isEmpty, Bool.not_false, Bool.true_and]
    cases hp : (y :: ys).isPrefixOf s with
    | true =>
      rw [if_pos rfl, if_pos ⟨by simp, List.isPrefixOf_iff_prefix.mp hp⟩]
    | false =>
      rw [if_neg (by simp), if_neg ?_]
      rintro ⟨_, hpre⟩
      have hpt := List.isPrefixOf_iff_prefix.mpr hpre
      rw [hp] at hpt
      cases hpt

theorem pyRsplitHead_eq_spec (d s : List Char) :
    pyRsplitHead d s = specTruncLast d s := by
  unfold pyRsplitHead specTruncLast
  cases d with
  | nil => simp [List.isEmpty]
  | cons y ys =>
    have hd : (y :: ys) ≠ [] := by simp
    simp only [List.isEmpty, Bool.not_false, Bool.true_and, if_neg hd]
    cases hc : pyContainsCore (y :: ys) s with
    | true =>
      have hex := (pyContains_iff _ hd s).mp hc
      rw [if_pos rfl, lastOccIdx_some_of_occurs _ hd s hex]
      obtain ⟨k, hk⟩ := hex
      have hP : occursB (y :: ys) s (lastOccSpec (y :: ys) s) = true :=
        Nat.findGreatest_spec (P := fun i => occursB (y :: ys) s i = true)
          (occursB_le_length hd hk) hk
      rw [if_pos hP]
    | false =>
      have hno : occursB (y :: ys) s (lastOccSpec (y :: ys) s) = false := by
        cases hocc : occursB (y :: ys) s (lastOccSpec (y :: ys) s) with
        | true =>
          rw [(pyContains_iff _ hd s).mpr ⟨_, hocc⟩] at hc
          cases hc
        | false => rfl
      rw [if_neg (by simp), if_neg (by simp [hno])]

/-- Counterexample to claim C5 as literally stated: on the entry name
`.csv` the code keeps the whole name (CPython's `splitext` treats leading
dots as part of the root), while the spec's literal step 2 ("strip the last
dot-delimited suffix") would leave the empty string. -/
theorem claim_C5_counterexample :
    normalize_filename ".csv" "" "" = ".csv" ∧
    specNormalize ".csv" "" "" = "" ∧
    ¬ normalize_filename ".csv" "" "" = specNormalize ".csv" "" "" := by
  refine ⟨by decide, by decide, by decide⟩

/-- Claim C5 (amended): `normalize_filename` is exactly the spec's four steps
in order — final path segment, extension strip, conditional single
case-sensitive marker strip, truncation at the last delimiter occurrence —
except that the extension strip cuts at the last dot only when a non-dot
character precedes it within the segment; under the no-op rule the result is
the base filename without extension (in that corrected sense), and the
result may be empty. -/
theorem claim_C5 :
    (∀ f p d : String,
        normalize_filename f p d = ⟨amendedNormalizeCore f.data p.data d.data⟩) ∧
    (∀ f : String,
        normalize_filename f "" "" = ⟨pySplitextRootCore (pyBasenameCore f.data)⟩) ∧
    (∀ (s : List Char) (j : Nat), lastOccIdx ['.'] s = some j →
        (s.take j).any (fun c => !(c == '.')) = true →
        pySplitextRootCore s = specStripExtCore s) ∧
    normalize_filename "x_1.csv" "x" "_" = "" := by
  have hmain : ∀ f p d : String,
      normalize_filename f p d = ⟨amendedNormalizeCore f.data p.data d.data⟩ := by
    intro f p d
    unfold normalize_filename normalizeCore amendedNormalizeCore
    rw [pyStripMarker_eq_spec, pyRsplitHead_eq_spec]
  refine ⟨hmain, fun f => ?_, fun s j hj hany => ?_, by decide⟩
  · rw [hmain f "" ""]
    rfl
  · have hdot : (['.'] : List Char) ≠ [] := by simp
    have hocc := lastOccIdx_some_occurs ['.'] s j hj
    have hspec : lastOccIdx ['.'] s = some (lastOccSpec ['.'] s) :=
      lastOccIdx_some_of_occurs ['.'] hdot s ⟨j, hocc⟩
    have hjeq : j = lastOccSpec ['.'] s := by
      rw [hj] at hspec
      exact Option.some.inj hspec
    have hP : occursB ['.'] s (lastOccSpec ['.'] s) = true := by
      rw [← hjeq]
      exact hocc
    unfold pySplitextRootCore specStripExtCore specTruncLast
    rw [hj]
    simp only []
    rw [if_pos hany, if_neg hdot, if_pos hP, hjeq]

/-- Witness for the amended C5 at a concrete name with a real extension. -/
theorem claim_C5_witness :
    pySplitextRootCore ("ab.c".data) = specStripExtCore ("ab.c".data) :=
  claim_C5.2.2.1 ("ab.c".data) 2 (by decide) (by decide)

/-! ### Heap frame reasoning -/

theorem frameAt_refl (H0 : Heap) (j : Nat) : FrameAt H0 j H0 := ⟨rfl, Nat.le_refl _⟩

theorem frameAt_alloc {H0 : Heap} {j : Nat} {H : Heap} (hj : j < H0.next)
    (h : FrameAt H0 j H) (T : Table) : FrameAt H0 j (H.alloc T) := by
  obtain ⟨h1, h2⟩ := h
  refine ⟨?_, by simp only [Heap.alloc]; omega⟩
  simp only [Heap.alloc]
  rw [if_neg (by omega)]
  exact h1

theorem frameAt_write_ge {H0 : Heap} {j : Nat} {H : Heap} (hj : j < H0.next)
    (h : FrameAt H0 j H) {i : Nat} (hi : H0.next ≤ i) (T : Table) :
    FrameAt H0 j (H.write i T) := by
  obtain ⟨h1, h2⟩ := h
  refine ⟨?_, by simp only [Heap.write]; omega⟩
  simp only [Heap.write]
  rw [if_neg (by omega)]
  exact h1

/-- Claim C9: the diff engine never mutates caller-owned tables — every heap
address allocated before the call holds the same table after it.  The two
in-place `_source` assignments only ever hit the fresh copies produced by
`drop`/`sort_index`. -/
theorem claim_C9 (H : Heap) (o1 o2 : Option Nat) (ig : List String) (j : Nat)
    (hj : j < H.next) :
    ((compare_dataframes_heap H o1 o2 ig).1).mem j = H.mem j := by
  match o1, o2 with
  | none, _ => rfl
  | some r1, none => rfl
  | some r1, some r2 =>
    simp only [compare_dataframes_heap]
    split
    · split
      · exact (frameAt_alloc hj (frameAt_write_ge hj (frameAt_write_ge hj
          (frameAt_alloc hj (frameAt_alloc hj (frameAt_alloc hj (frameAt_alloc hj
            (frameAt_refl H j) _) _) _) _) (by simp only [Heap.alloc]; omega) _)
          (by simp only [Heap.alloc, Heap.write]; omega) _) _).1
      · split
        · exact (frameAt_alloc hj (frameAt_alloc hj (frameAt_write_ge hj (frameAt_write_ge hj
            (frameAt_alloc hj (frameAt_alloc hj (frameAt_alloc hj (frameAt_alloc hj
              (frameAt_refl H j) _) _) _) _) (by simp only [Heap.alloc]; omega) _)
            (by simp only [Heap.alloc, Heap.write]; omega) _) _) _).1
        · exact (frameAt_alloc hj (frameAt_alloc hj (frameAt_write_ge hj (frameAt_write_ge hj
            (frameAt_alloc hj (frameAt_alloc hj (frameAt_alloc hj (frameAt_alloc hj
              (frameAt_refl H j) _) _) _) _) (by simp only [Heap.alloc]; omega) _)
            (by simp only [Heap.alloc, Heap.write]; omega) _) _) _).1
    · exact (frameAt_alloc hj (frameAt_alloc hj (frameAt_refl H j) _) _).1

/-- Witness for C9: a one-object heap compared against itself. -/
theorem claim_C9_witness :
    ((compare_dataframes_heap ⟨fun _ => ⟨["a"], []⟩, 1⟩ (some 0) (some 0) []).1).mem 0 =
      (⟨fun _ => ⟨["a"], []⟩, 1⟩ : Heap).mem 0 :=
  claim_C9 ⟨fun _ => ⟨["a"], []⟩, 1⟩ (some 0) (some 0) [] 0 (by decide)

/-! ### Indexer and matcher -/

theorem sortedCols_perm (l : List String) : (sortedCols l).Perm l :=
  List.perm_insertionSort _ l

/-- Claim C8: the entry listing is the lexicographically sorted selection of
the names whose lowercased form ends in `.csv` and which do not start with
the macOS metadata marker; an unreadable archive yields the empty list,
indistinguishable from a readable archive with no tabular entries. -/
theorem claim_C8 :
    (∀ (names : List String) (f : String),
        f ∈ get_file_list (some names) ↔
          f ∈ names ∧
            (f.toLower.endsWith ".csv" && !(f.startsWith "__MACOSX")) = true) ∧
    (∀ names : List String,
        (get_file_list (some names)).Perm
          (names.filter (fun f => f.toLower.endsWith ".csv" && !(f.startsWith "__MACOSX")))) ∧
    (∀ z : Option (List String),
        List.Sorted (fun a b : String => a ≤ b) (get_file_list z)) ∧
    get_file_list none = [] ∧
    get_file_list none = get_file_list (some []) := by
  refine ⟨fun names f => ?_, fun names => ?_, fun z => ?_, rfl, rfl⟩
  · unfold get_file_list
    rw [mem_sortedCols, List.mem_filter]
  · exact sortedCols_perm _
  · cases z with
    | none => exact List.sorted_nil
    | some names => exact sortedCols_sorted _

/-- Witness-style instantiation of C8 on a concrete listing. -/
theorem claim_C8_witness :
    "a.csv" ∈ get_file_list (some ["b.CSV", "a.csv", "__MACOSX/a.csv", "notes.txt"]) ↔
      "a.csv" ∈ ["b.CSV", "a.csv", "__MACOSX/a.csv", "notes.txt"] ∧
        (("a.csv".toLower.endsWith ".csv") && !("a.csv".startsWith "__MACOSX")) = true :=
  claim_C8.1 ["b.CSV", "a.csv", "__MACOSX/a.csv", "notes.txt"] "a.csv"

theorem find?_eq_none_of_any_false (m : List (String × String)) (k : String)
    (h : m.any (fun q => q.1 == k) = false) :
    m.find? (fun q => q.1 == k) = none := by
  induction m with
  | nil => rfl
  | cons q m ih =>
    simp only [List.any_cons, Bool.or_eq_false_iff] at h
    rw [List.find?_cons_of_neg _ (by simp [h.1]), ih h.2]

theorem lookupMap_replace_ne (m : List (String × String)) (k v k' : String)
    (hk : ¬ k' = k) :
    lookupMap (m.map (fun q => if q.1 == k then (k, v) else q)) k' = lookupMap m k' := by
  induction m with
  | nil => rfl
  | cons q m ih =>
    simp only [List.map_cons]
    cases hq : (q.1 == k) with
    | true =>
      have hq1 : q.1 = k := by simpa using hq
      have hne : ((k, v).1 == k') = false := beq_eq_false_iff_ne.mpr (fun h => hk h.symm)
      have hne2 : (q.1 == k') = false := by
        rw [hq1]
        exact beq_eq_false_iff_ne.mpr (fun h => hk h.symm)
      rw [if_pos rfl]
      unfold lookupMap
      rw [List.find?_cons_of_neg _ (by simp [hne]), List.find?_cons_of_neg _ (by simp [hne2])]
      exact ih
    | false =>
      rw [if_neg (by simp [hq])]
      unfold lookupMap
      cases hq' : (q.1 == k') with
      | true => rw [List.find?_cons_of_pos _ (by simp [hq']), List.find?_cons_of_pos _ (by simp [hq'])]
      | false =>
        rw [List.find?_cons_of_neg _ (by simp [hq']), List.find?_cons_of_neg _ (by simp [hq'])]
        exact ih

theorem lookupMap_replace_hit (m : List (String × String)) (k v : String)
    (h : m.any (fun q => q.1 == k) = true) :
    lookupMap (m.map (fun q => if q.1 == k then (k, v) else q)) k = some v := by
  induction m with
  | nil => simp at h
  | cons q m ih =>
    simp only [List.map_cons]
    cases hq : (q.1 == k) with
    | true =>
      rw [if_pos rfl]
      unfold lookupMap
      rw [List.find?_cons_of_pos _ (by simp)]
      rfl
    | false =>
      rw [if_neg (by simp [hq])]
      simp only [List.any_cons, hq, Bool.false_or] at h
      unfold lookupMap
      rw [List.find?_cons_of_neg _ (by simp [hq])]
      exact ih h

theorem lookupMap_append_single (m : List (String × String)) (k v k' : String) :
    lookupMap (m ++ [(k, v)]) k' =
      match lookupMap m k' with
      | some w => some w
      | none => if k' = k then some v else none := by
  induction m with
  | nil =>
    simp only [List.nil_append]
    unfold lookupMap
    cases hk : (k == k') with
    | true =>
      have : k = k' := by simpa using hk
      rw [List.find?_cons_of_pos _ (by simp [hk]), if_pos this.symm]
      rfl
    | false =>
      have : ¬ k' = k := by
        intro h
        subst h
        simp at hk
      rw [List.find?_cons_of_neg _ (by simp [hk]), if_neg this]
      rfl
  | cons q m ih =>
    simp only [List.cons_append]
    unfold lookupMap
    cases hq : (q.1 == k') with
    | true =>
      rw [List.find?_cons_of_pos _ (by simp [hq]), List.find?_cons_of_pos _ (by simp [hq])]
      rfl
    | false =>
      rw [List.find?_cons_of_neg _ (by simp [hq]), List.find?_cons_of_neg _ (by simp [hq])]
      exact ih

theorem lookupMap_insertReplace (m : List (String × String)) (k v k' : String) :
    lookupMap (insertReplace m k v) k' = if k' = k then some v else lookupMap m k' := by
  unfold insertReplace
  cases hany : m.any (fun q => q.1 == k) with
  | true =>
    rw [if_pos rfl]
    by_cases hk : k' = k
    · subst hk
      rw [if_pos rfl]
      exact lookupMap_replace_hit m k' v hany
    · rw [if_neg hk]
      exact lookupMap_replace_ne m k v k' hk
  | false =>
    rw [if_neg (by simp)]
    rw [lookupMap_append_single m k v k']
    by_cases hk : k' = k
    · subst hk
      have : lookupMap m k' = none := by
        unfold lookupMap
        rw [find?_eq_none_of_any_false m k' hany]
        rfl
      rw [this, if_pos rfl]
    · cases hl : lookupMap m k' with
      | some w => simp [hk]
      | none => simp [hk]

theorem lookup_buildMap (files : List String) (pfx sfx : String) (k : String) :
    lookupMap (buildMap files pfx sfx) k =
      (files.filter (fun f => normalize_filename f pfx sfx == k)).getLast? := by
  induction files using List.reverseRecOn with
  | nil => rfl
  | append_singleton fs f ih =>
    simp only [buildMap, List.foldl_append, List.foldl_cons, List.foldl_nil] at ih ⊢
    rw [lookupMap_insertReplace, List.filter_append]
    simp only [List.filter_cons, List.filter_nil]
    cases hf : (normalize_filename f pfx sfx == k) with
    | true =>
      have hkf : k = normalize_filename f pfx sfx := (by simpa using hf : _ = k).symm
      rw [if_pos hkf, if_pos rfl, List.getLast?_concat]
    | false =>
      have hkf : ¬ k = normalize_filename f pfx sfx := by
        intro h
        subst h
        simp at hf
      rw [if_neg hkf, if_neg (by simp), List.append_nil]
      exact ih

/-- Claim C6: the name-to-path map built over the sorted listing keeps, for
each normalized key, the last listed file normalizing to it (later entries
silently overwrite earlier ones); on the spec's `kaplan` example both
entries collapse to key `x` and the later path wins; and the key
intersection is the lexicographically sorted duplicate-free sequence of
exactly the keys present in both maps. -/
theorem claim_C6 :
    (∀ (files : List String) (pfx sfx k : String),
        lookupMap (buildMap files pfx sfx) k =
          (files.filter (fun f => normalize_filename f pfx sfx == k)).getLast?) ∧
    (normalize_filename "kaplan-x_1.csv" "kaplan-" "_" = "x" ∧
      normalize_filename "kaplan-x_2.csv" "kaplan-" "_" = "x" ∧
      lookupMap (buildMap ["kaplan-x_1.csv", "kaplan-x_2.csv"] "kaplan-" "_") "x" =
        some "kaplan-x_2.csv") ∧
    (∀ m1 m2 : List (String × String),
        List.Sorted (fun a b : String => a ≤ b) (common_keys m1 m2) ∧
        List.Nodup (common_keys m1 m2) ∧
        (∀ k, k ∈ common_keys m1 m2 ↔ k ∈ mapKeys m1 ∧ k ∈ mapKeys m2)) := by
  refine ⟨lookup_buildMap, ⟨by decide, by decide, by decide⟩, fun m1 m2 => ⟨?_, ?_, fun k => ?_⟩⟩
  · exact sortedCols_sorted _
  · have h1 : List.Nodup (((mapKeys m1).dedup).filter (fun k => (mapKeys m2).contains k)) :=
      List.Nodup.filter _ (List.nodup_dedup _)
    exact ((List.perm_insertionSort _ _).nodup_iff).mpr h1
  · unfold common_keys
    rw [mem_sortedCols, List.mem_filter, List.mem_dedup, contains_iff_mem]

/-- Witness-style instantiation of C6's overwrite rule on a fresh listing. -/
theorem claim_C6_witness :
    lookupMap (buildMap ["a_1.csv", "a_2.csv"] "" "_") "a" =
      ((["a_1.csv", "a_2.csv"].filter
        (fun f => normalize_filename f "" "_" == "a")).getLast?) :=
  claim_C6.1 ["a_1.csv", "a_2.csv"] "" "_" "a"
